import Mathlib

/-!
Shallow embedding of `src/RRG.py` (class `RRG`) and verification of the
specification's claims about it.

The development has two parts:

* The interactive presentation state machine (`_clear_all`, `_toggle_text`,
  `_toggle_lines`, `_toggle_help`, `_cycle_dates`, `_on_pick`,
  `_on_key_press`).  Matplotlib artist alpha values are modelled as rationals.
  The Python expression `x == y or z` evaluates to `True` when `x == y`; the
  resulting `True` behaves as the number `1` in every later operation the code
  performs on an alpha (`== 0`, `== 0.5`, `== 0.6`, `== 1` and truthiness), so
  it is modelled as the rational `1`.

* The computational engine (`_process_ser`, `_calculate_rs`,
  `_calculate_momentum`, `_get_color`) and the `plot` orchestration.  Price
  values are real numbers; a pandas `NaN` entry is modelled as `Option.none`.
  pandas aligns the two operands of `stock_df / benchmark_df` on the sorted
  union of their date indexes, filling `NaN` where a date is missing on one
  side, and `rolling(window=w)` (with its default `min_periods = w`) yields
  `NaN` whenever the trailing window is incomplete or contains a `NaN`; both
  behaviours are modelled explicitly.  Exceptions (`KeyError`, `IndexError`,
  `ValueError`) are modelled with `Except`.
-/

namespace RRG

/-! ## Interaction state machine: data model -/

/-- Alpha channel value of a matplotlib artist, as stored by `set_alpha`. -/
abbrev Alpha := ℚ

/-- Default text alpha (`self.text_alpha = 0.6` in `__init__`), written as a
raw rational literal (numerator `3`, denominator `5`) so that concrete
machine states evaluate inside the kernel; `textAlphaDefault_eq` below checks
it equals `3 / 5`. -/
def textAlphaDefault : Alpha := ⟨3, 5, by decide, by decide⟩

/-- Default line alpha (`self.line_alpha = 0.5` in `__init__`);
`lineAlphaDefault_eq` below checks it equals `1 / 2`. -/
def lineAlphaDefault : Alpha := ⟨1, 2, by decide, by decide⟩

/-- Visibility state of one scene entry `self.state[url]`: the alpha of its
tail line (`"line"`), its tail markers (`"markers"`), its ticker label
(`"annotation"` in the source, called `label` here) and its per-point date
labels (`"dates"`). -/
structure SceneEntryState where
  line : Alpha
  markers : Alpha
  label : Alpha
  dates : List Alpha
deriving DecidableEq

/-- The mutable interaction state of an `RRG` session after `plot` has built
the scene: the per-entry artists (`self.state`, an insertion-ordered dict),
the global alpha toggles, and the date-cycling bookkeeping
(`tabbable`, `tabindex`, `highlighted_count`, `active_date_labels`,
`help_plt`).  A date label is identified by `(url, position)`. -/
structure MachineState where
  entries : List (String × SceneEntryState)
  text_alpha_state : Alpha
  line_alpha_state : Alpha
  tabbable : Bool
  tabindex : ℕ
  highlighted_count : ℤ
  active_date_labels : List (String × ℕ)
  help_on : Bool
deriving DecidableEq

/-! ## Interaction state machine: event handlers -/

/-- Translation of `_clear_active_date_labels`: every label recorded in
`active_date_labels` has its alpha set to `0`, then the list is emptied.
(The source also detaches the label's background patch; background styling is
not part of any claim and is not modelled.) -/
def clearActiveDateLabels (s : MachineState) : MachineState :=
  { s with
    entries := s.entries.map (fun p =>
      (p.1, { p.2 with
              dates := p.2.dates.enum.map (fun q =>
                if (p.1, q.1) ∈ s.active_date_labels then 0 else q.2) })),
    active_date_labels := [] }

/-- Translation of `_clear_all` (bound to the `delete` key).  Returns the new
state together with the redraw flag (`draw_idle` is called iff `updated`).
For every entry whose line alpha is truthy, the line and markers are hidden
and the label is reset to the global text state; if any date labels are
active they are cleared and `highlighted_count` / `tabbable` are reset. -/
def clear_all (s : MachineState) : MachineState × Bool :=
  let anyLine := s.entries.any (fun p => p.2.line != 0)
  let s1 := { s with
    entries := s.entries.map (fun p =>
      (p.1, if p.2.line ≠ 0 then
              { p.2 with line := 0, markers := 0, label := s.text_alpha_state }
            else p.2)) }
  if s.active_date_labels.isEmpty then
    (s1, anyLine)
  else
    let s2 := clearActiveDateLabels s1
    ({ s2 with highlighted_count := 0, tabbable := false }, true)

/-- Translation of `_toggle_text` (key `a`): compute the new global text alpha
(flip between `0` and the default), apply it to every label not currently at
alpha `1`, store it as the new global state, and request a redraw. -/
def toggle_text (s : MachineState) : MachineState × Bool :=
  let alpha := if s.text_alpha_state = 0 then textAlphaDefault else 0
  ({ s with
     entries := s.entries.map (fun p =>
       (p.1, if p.2.label = 1 then p.2 else { p.2 with label := alpha })),
     text_alpha_state := alpha }, true)

/-- Translation of `_toggle_lines` (key `t`): same shape as `_toggle_text`,
but it touches only the tail line of each entry (the source never touches
`"markers"` here). -/
def toggle_lines (s : MachineState) : MachineState × Bool :=
  let alpha := if s.line_alpha_state = 0 then lineAlphaDefault else 0
  ({ s with
     entries := s.entries.map (fun p =>
       (p.1, if p.2.line = 1 then p.2 else { p.2 with line := alpha })),
     line_alpha_state := alpha }, true)

/-- Translation of `_toggle_help` (key `h`): toggles the help overlay. -/
def toggle_help (s : MachineState) : MachineState × Bool :=
  ({ s with help_on := !s.help_on }, true)

/-- Helper: set the alpha of date label `i` of entry number `j`. -/
def setDateAlpha (s : MachineState) (j i : ℕ) (v : Alpha) : MachineState :=
  { s with
    entries := s.entries.enum.map (fun q =>
      if q.1 = j then (q.2.1, { q.2.2 with dates := q.2.2.dates.set i v })
      else q.2) }

/-- One iteration of the `for url in self.state` loop of `_cycle_dates`,
acting on entry number `j`.  The source indexes `dates[self.tabindex]`
directly; that index is in range whenever this branch is reachable, so the
`none` case of the lookup is inert. -/
def cycleEntryAt (step : ℤ) (s : MachineState) (j : ℕ) : MachineState :=
  match s.entries[j]? with
  | none => s
  | some (u, e) =>
    if e.line = 1 then
      match e.dates[s.tabindex]? with
      | none => s
      | some a =>
        if a = 0 then
          let s1 := setDateAlpha s j s.tabindex 1
          { s1 with active_date_labels := s1.active_date_labels ++ [(u, s.tabindex)] }
        else
          let s1 := clearActiveDateLabels s
          let ti := (((s.tabindex : ℤ) + step) % (e.dates.length : ℤ)).toNat
          let s2 := setDateAlpha { s1 with tabindex := ti } j ti 1
          { s2 with active_date_labels := s2.active_date_labels ++ [(u, ti)] }
    else s

/-- Translation of `_cycle_dates` (arrow keys).  A no-op without redraw unless
`tabbable`; otherwise the per-entry step runs over all entries in order
(Python's `%` on a positive modulus agrees with `Int.emod`). -/
def cycle_dates (key : String) (s : MachineState) : MachineState × Bool :=
  if s.tabbable = false then (s, false)
  else
    let step : ℤ := if key = "left" then -1 else 1
    ((List.range s.entries.length).foldl (cycleEntryAt step) s, true)

/-- Translation of `_on_pick` (mouse click on a head marker whose url is
`url`).  The source looks the entry up in `self.state`; a pick event always
carries a url present there, so the `none` cases are inert. -/
def on_pick (url : String) (s : MachineState) : MachineState × Bool :=
  match s.entries.findIdx? (fun p => p.1 = url) with
  | none => (s, false)
  | some j =>
    let s1 := { s with tabindex := 0 }
    let s2 := if s1.active_date_labels.isEmpty then s1 else clearActiveDateLabels s1
    match s2.entries[j]? with
    | none => (s2, false)
    | some (_, e) =>
      let m : Alpha := if e.markers = 0 then 1 else 0
      let cnt : ℤ :=
        if e.markers = 0 then s2.highlighted_count + 1
        else s2.highlighted_count - 1
      let tab : Bool :=
        if e.markers = 0 then true
        else (if s2.highlighted_count - 1 = 0 then false else s2.tabbable)
      let l : Alpha :=
        if s2.line_alpha_state = lineAlphaDefault then
          (if e.line = lineAlphaDefault then 1 else lineAlphaDefault)
        else
          (if e.line = 0 then 1 else 0)
      let a : Alpha :=
        if s2.text_alpha_state = textAlphaDefault then
          (if e.label = textAlphaDefault then 1 else textAlphaDefault)
        else
          (if e.label = 0 then 1 else 0)
      let s3 := { s2 with
        entries := s2.entries.enum.map (fun q =>
          if q.1 = j then
            (q.2.1, { q.2.2 with markers := m, line := l, label := a })
          else q.2),
        highlighted_count := cnt, tabbable := tab }
      (s3, true)

/-- Translation of `_on_key_press` together with the `key_handler` table built
in `__init__`: keys outside the table are ignored (no state change, no
redraw). -/
def on_key_press (key : String) (s : MachineState) : MachineState × Bool :=
  if key = "delete" then clear_all s
  else if key = "a" then toggle_text s
  else if key = "t" then toggle_lines s
  else if key = "h" then toggle_help s
  else if key = "left" then cycle_dates key s
  else if key = "right" then cycle_dates key s
  else (s, false)

/-- An input event delivered by the matplotlib canvas. -/
inductive Event where
  | pick (url : String)
  | keyPress (key : String)
deriving DecidableEq

/-- Dispatch one event (dropping the redraw flag). -/
def applyEvent (s : MachineState) (e : Event) : MachineState :=
  match e with
  | .pick u => (on_pick u s).1
  | .keyPress k => (on_key_press k s).1

/-- Run a sequence of events. -/
def runEvents (s : MachineState) (es : List Event) : MachineState :=
  es.foldl applyEvent s

/-- A freshly plotted single-entry scene: all alphas `0`, both global toggles
off, nothing highlighted. -/
def entry0 : SceneEntryState :=
  { line := 0, markers := 0, label := 0, dates := [0, 0, 0, 0] }

/-- Initial interaction state right after `plot` for a watchlist with one
surviving ticker (url `"s0"`, four tail dates). -/
def init0 : MachineState :=
  { entries := [("s0", entry0)]
    text_alpha_state := 0
    line_alpha_state := 0
    tabbable := false
    tabindex := 0
    highlighted_count := 0
    active_date_labels := []
    help_on := false }

/-- Same fresh scene with two entries (urls `"s0"`, `"s1"`). -/
def init2 : MachineState :=
  { init0 with entries := [("s0", entry0), ("s1", entry0)] }

/-! ## Computational engine: data model -/

/-- A date of a pandas `DatetimeIndex`, modelled as an integer (only order and
equality of dates matter to the code). -/
abbrev Date := ℤ

/-- A date-indexed close-price series (`df.loc[:, "Close"]`). -/
abbrev Series := List (Date × ℝ)

/-- Dates (index) of a series. -/
def datesOf {α : Type} (s : List (Date × α)) : List Date := s.map Prod.fst

/-- Translation of `ser.loc[~ser.index.duplicated()]`: drop every row whose
date already occurred earlier, keeping the first occurrence of each date and
the original order (`seen` accumulates the dates already kept). -/
def dropDuplicateDates {α : Type} (seen : List Date) :
    List (Date × α) → List (Date × α)
  | [] => []
  | p :: ps =>
    if p.1 ∈ seen then dropDuplicateDates seen ps
    else p :: dropDuplicateDates (p.1 :: seen) ps

/-- Translation of `ser.sort_index(ascending=True)`.  The code only sorts a
series whose dates are unique, so any correct sort by date computes the pandas
result; insertion sort is used for its Mathlib lemmas. -/
def sortByDate {α : Type} (s : List (Date × α)) : List (Date × α) :=
  List.insertionSort (fun p q => p.1 ≤ q.1) s

/-- Translation of the static method `_process_ser`: de-duplicate the index if
it has duplicates (`ser.index.has_duplicates`), then sort ascending if it is
not already monotonic (`ser.index.is_monotonic_increasing`, a non-strict
comparison, rendered as `Pairwise (· ≤ ·)` which is equivalent to the adjacent
comparison by transitivity). -/
def process_ser {α : Type} (s : List (Date × α)) : List (Date × α) :=
  let s1 := if ¬ (datesOf s).Nodup then dropDuplicateDates [] s else s
  if ¬ (datesOf s1).Pairwise (· ≤ ·) then sortByDate s1 else s1

/-- Translation of the scalar lookup `ser.at[d]` on a unique date index. -/
def lookupDate (xs : Series) (d : Date) : Option ℝ :=
  (xs.find? (fun p => p.1 == d)).map Prod.snd

/-- Translation of Python sequence indexing `xs[i]` with negative-index
wrap-around; `none` models an `IndexError`. -/
def pythonGet {α : Type} (xs : List α) (i : ℤ) : Option α :=
  if 0 ≤ i then xs.get? i.toNat
  else
    let j := (xs.length : ℤ) + i
    if 0 ≤ j then xs.get? j.toNat else none

/-! ## Computational engine: rolling statistics -/

/-- The trailing window of length `w` ending at position `i` (positions
`i + 1 - w` through `i`). -/
def windowSlice {α : Type} (xs : List α) (w i : ℕ) : List α :=
  (xs.take (i + 1)).drop (i + 1 - w)

/-- Collect a list of optional values, failing on any `none` (a window that
contains a pandas `NaN` yields `NaN`). -/
def allSome : List (Option ℝ) → Option (List ℝ)
  | [] => some []
  | none :: _ => none
  | some x :: xs => (allSome xs).map (x :: ·)

/-- Mean of a window of `w` values (`rolling(window=w).mean()`). -/
noncomputable def rollingMeanVal (vs : List ℝ) (w : ℕ) : ℝ := vs.sum / w

/-- Sample standard deviation of a window of `w` values
(`rolling(window=w).std(ddof=1)`), dividing by `w - 1`. -/
noncomputable def rollingStdVal (vs : List ℝ) (w : ℕ) : ℝ :=
  Real.sqrt ((vs.map (fun x => (x - rollingMeanVal vs w) ^ 2)).sum / ((w : ℝ) - 1))

/-- The shared transform of `_calculate_rs` and `_calculate_momentum`:
`((x - x.rolling(w).mean()) / x.rolling(w).std(ddof=1)).dropna() + 100`
over an optional-valued (NaN-aware) series.  A point is dropped when its
trailing window is incomplete or contains `NaN` (rolling mean/std are `NaN`),
or when the rolling standard deviation is zero: the window is then constant,
so the numerator is zero as well and `0.0 / 0.0` is `NaN`. -/
noncomputable def normalizeRolling (w : ℕ) (xs : List (Date × Option ℝ)) : Series :=
  (List.range xs.length).filterMap (fun i =>
    if h : i < xs.length then
      if i + 1 < w then none
      else
        match allSome (windowSlice (xs.map Prod.snd) w i) with
        | none => none
        | some vs =>
          match (xs.get ⟨i, h⟩).2 with
          | none => none
          | some x =>
            if rollingStdVal vs w = 0 then none
            else some ((xs.get ⟨i, h⟩).1,
                       (x - rollingMeanVal vs w) / rollingStdVal vs w + 100)
    else none)

/-- Sorted union of two date indexes, as produced by pandas index alignment
(`List.dedup` keeps one occurrence of each date; the sort fixes the order). -/
def mergedDates (d1 d2 : List Date) : List Date :=
  List.insertionSort (· ≤ ·) (d1 ++ d2).dedup

/-- Translation of `(stock_df / benchmark_df) * 100`: pandas aligns both
series on the sorted union of their indexes and fills `NaN` (`none`) wherever
a date is missing on either side. -/
noncomputable def alignedDiv (stock bm : Series) : List (Date × Option ℝ) :=
  (mergedDates (datesOf stock) (datesOf bm)).map (fun d =>
    (d, match lookupDate stock d, lookupDate bm d with
        | some x, some y => some (x / y * 100)
        | _, _ => none))

/-- Translation of `_calculate_rs`. -/
noncomputable def calculate_rs (w : ℕ) (stock bm : Series) : Series :=
  normalizeRolling w (alignedDiv stock bm)

/-- Rate of change of a series against a base value:
`((rs_ratio / base_rs) - 1) * 100`. -/
noncomputable def rocSeries (base : ℝ) (rs : Series) : Series :=
  rs.map (fun p => (p.1, (p.2 / base - 1) * 100))

/-- View an all-finite series as an optional-valued one (no `NaN` entries). -/
def toOptionSeries (s : Series) : List (Date × Option ℝ) :=
  s.map (fun p => (p.1, some p.2))

/-- Failure of the momentum base lookup: `KeyError` from `rs_ratio.at[...]`
(a `LookupError`) or `IndexError` from `rs_ratio.iloc[-period]`. -/
inductive MomErr where
  | lookupFailure
  | indexOutOfRange
deriving DecidableEq

/-- Translation of `_calculate_momentum`: pick the base value at `BASE_DATE`
when one is configured (`if self.base_date:`), else `PERIOD` observations
before the end (`iloc[-period]`), then apply the shared rolling transform to
the rate-of-change series. -/
noncomputable def calculate_momentum (w period : ℕ) (baseDate : Option Date)
    (rs_ratio : Series) : Except MomErr Series :=
  match baseDate with
  | some d =>
    match lookupDate rs_ratio d with
    | none => .error .lookupFailure
    | some base =>
      .ok (normalizeRolling w (toOptionSeries (rocSeries base rs_ratio)))
  | none =>
    match pythonGet rs_ratio (-(period : ℤ)) with
    | none => .error .indexOutOfRange
    | some q =>
      .ok (normalizeRolling w (toOptionSeries (rocSeries q.2 rs_ratio)))

/-! ## Computational engine: quadrant colors and plot orchestration -/

/-- Translation of the static method `_get_color`. -/
noncomputable def get_color (x y : ℝ) : String :=
  if x > 100 then (if y > 100 then "#008217" else "#918000")
  else (if y > 100 then "#00749D" else "#E0002B")

/-- Failure of the whole `plot` call (an uncaught exception). -/
inductive PlotErr where
  | benchmarkLoadFailure
  | benchmarkInsufficient
  | momLookupFailure
  | momIndexOutOfRange
  | tickerUnpackFailure
deriving DecidableEq

/-- Map a momentum failure to the corresponding plot-level failure. -/
def MomErr.toPlotErr : MomErr → PlotErr
  | .lookupFailure => .momLookupFailure
  | .indexOutOfRange => .momIndexOutOfRange

/-- Translation of the watchlist-entry split:
`if "," in ticker: ticker, short_name = ticker.split(",")`, where unpacking
more than two parts raises `ValueError`. -/
def splitTicker (t : String) : Except PlotErr (String × String) :=
  match (t.toList.splitOn ',').map (fun cs => String.mk cs) with
  | [s] => .ok (s, s)
  | [sym, short] => .ok (sym, short)
  | _ => .error .tickerUnpackFailure

/-- The renderable scene entry `plot` builds for one surviving ticker: its
marker url `s{i}`, display name, head color, and the tail slices
`rsr.iloc[-tail_count:]` / `rsm.iloc[-tail_count:]`.  (Axis bounds and the
smoothing of the drawn path are cosmetic and outside every claim.) -/
structure SceneEntry where
  url : String
  name : String
  color : String
  rsrTail : Series
  rsmTail : Series

/-- Build the scene entry for ticker number `i`.  The head point
`rsr.iloc[-1]` / `rsm.iloc[-1]` exists because the caller has already checked
`min(len(rsm), len(rsr)) >= tail_count >= 2`, so the `getLastD` default is
inert. -/
noncomputable def mkSceneEntry (i : ℕ) (short : String) (tailCount : ℕ)
    (rsr rsm : Series) : SceneEntry :=
  { url := "s" ++ toString i
    name := short.toUpper
    color := get_color (rsr.getLastD (0, 0)).2 (rsm.getLastD (0, 0)).2
    rsrTail := rsr.drop (rsr.length - tailCount)
    rsmTail := rsm.drop (rsm.length - tailCount) }

/-- One iteration of the watchlist loop of `plot` for ticker string `t` at
enumeration index `i`: `.ok none` models `continue` (ticker skipped with a
warning), `.error` models an uncaught exception aborting `plot`. -/
noncomputable def plotTicker (w period tailCount : ℕ) (baseDate : Option Date)
    (loader : String → Option Series) (bmCloses : Series) (i : ℕ) (t : String) :
    Except PlotErr (Option SceneEntry) :=
  match splitTicker t with
  | .error e => .error e
  | .ok (sym, short) =>
    match loader sym with
    | none => .ok none
    | some df =>
      if df.isEmpty then .ok none
      else
        let rsr := calculate_rs w (process_ser df) bmCloses
        match calculate_momentum w period baseDate rsr with
        | .error e => .error e.toPlotErr
        | .ok rsm =>
          if min rsm.length rsr.length < tailCount then .ok none
          else .ok (some (mkSceneEntry i short tailCount rsr rsm))

/-- The watchlist loop of `plot` (`for i, ticker in enumerate(self.watchlist)`):
scene entries accumulate in order; the first uncaught exception aborts the
whole loop. -/
noncomputable def plotLoop (w period tailCount : ℕ) (baseDate : Option Date)
    (loader : String → Option Series) (bmCloses : Series) :
    ℕ → List String → Except PlotErr (List SceneEntry)
  | _, [] => .ok []
  | i, t :: ts =>
    match plotTicker w period tailCount baseDate loader bmCloses i t with
    | .error e => .error e
    | .ok e? =>
      match plotLoop w period tailCount baseDate loader bmCloses (i + 1) ts with
      | .error e => .error e
      | .ok rest => .ok (match e? with | some e => e :: rest | none => rest)

/-- Translation of `self.minimum_data_length` computed in `__init__`
(`window * 2 + max(window, period) + tail_count`), with `tail_count` already
clamped to a minimum of `2`. -/
def minimum_data_length (w period tailCount : ℕ) : ℕ :=
  w * 2 + max w period + tailCount

/-- Translation of `plot` up to the construction of the scene entries: load
the benchmark, fail fatally (`raise ValueError`) if it is missing, empty or
shorter than `minimum_data_length` — all before any drawing —, then run the
watchlist loop against the processed benchmark closes.  `tailCountParam` is
the constructor argument, clamped by `max(2, tail_count)` in `__init__`. -/
noncomputable def plot (w period : ℕ) (baseDate : Option Date)
    (tailCountParam : ℕ) (loader : String → Option Series)
    (benchmark : String) (watchlist : List String) :
    Except PlotErr (List SceneEntry) :=
  let tailCount := max 2 tailCountParam
  match loader benchmark with
  | none => .error .benchmarkLoadFailure
  | some bm =>
    if bm.isEmpty then .error .benchmarkLoadFailure
    else if bm.length < minimum_data_length w period tailCount then
      .error .benchmarkInsufficient
    else plotLoop w period tailCount baseDate loader (process_ser bm) 0 watchlist

/-! ## Spec-side definition for the RS-ratio refinement (claim C3) -/

/-- Specification-side RS-ratio, written from the spec's words for a pair of
aligned input series given as one date list `ds` and two value lists:
relative strength `rs = (ticker / benchmark) * 100`; output
`(rs - rolling_mean(rs)) / rolling_std(rs, ddof = 1) + 100` over window `w`;
the warm-up prefix with insufficient history (`i + 1 < w`) is dropped, and
any point whose rolling standard deviation is zero is also dropped. -/
noncomputable def rsSpecSeries (w : ℕ) (ds : List Date) (sv bv : List ℝ) : Series :=
  let rs := List.zipWith (fun s b => s / b * 100) sv bv
  (List.range rs.length).filterMap (fun i =>
    if w ≤ i + 1 ∧ rollingStdVal (windowSlice rs w i) w ≠ 0 then
      some (ds.getD i 0,
            (rs.getD i 0 - rollingMeanVal (windowSlice rs w i) w) /
              rollingStdVal (windowSlice rs w i) w + 100)
    else none)

/-! ## Concrete data for the plot-level claims (C1, C4) -/

/-- Benchmark series: eight points, constant close `1`. -/
noncomputable def bmSeries : Series :=
  [(0, 1), (1, 1), (2, 1), (3, 1), (4, 1), (5, 1), (6, 1), (7, 1)]

/-- Ticker series with a single observation: after pandas alignment against
the eight benchmark dates, every rolling window of width `2` contains a `NaN`,
so its RS-ratio series is empty and the momentum base lookup must fail. -/
noncomputable def t1Series : Series := [(0, 1)]

/-- A loader with benchmark `"SPY"`, the one-point ticker `"T1"` and the
healthy ticker `"T2"`. -/
noncomputable def loaderC1 : String → Option Series := fun t =>
  if t = "SPY" then some bmSeries
  else if t = "T1" then some t1Series
  else if t = "T2" then some bmSeries
  else none

/-! ## Date cycling on a highlighted entry (claim C6) -/

/-- Date-label alphas with exactly position `j` revealed (tail length 4). -/
def unitDates (j : ℕ) : List Alpha :=
  (List.range 4).map (fun i => if i = j then 1 else 0)

/-- The interaction state right after picking the single entry of `init0`
(its line, markers and label are forced to alpha `1`, the machine is
cursorable): the state the claim's date cycling starts from. -/
def cycleStart : MachineState :=
  { entries := [("s0", { line := 1, markers := 1, label := 1, dates := [0, 0, 0, 0] })]
    text_alpha_state := 0
    line_alpha_state := 0
    tabbable := true
    tabindex := 0
    highlighted_count := 1
    active_date_labels := []
    help_on := false }

/-- The cycling state with cursor at `j`: exactly date label `j` is revealed
and recorded in the active list. -/
def cycleUnit (j : ℕ) : MachineState :=
  { cycleStart with
    entries := [("s0", { line := 1, markers := 1, label := 1, dates := unitDates j })]
    tabindex := j
    active_date_labels := [("s0", j)] }

/-- One `CycleDate(next)` key press (right arrow). -/
def pressNext (s : MachineState) : MachineState := (cycle_dates "right" s).1

/-- One `CycleDate(prev)` key press (left arrow). -/
def pressPrev (s : MachineState) : MachineState := (cycle_dates "left" s).1

/-! ## Reachability invariant of the interaction machine (claim C2) -/

/-- Per-entry alpha invariant maintained by every Pick / ToggleText /
ToggleLines / CycleDate transition (no ClearAll in the history), where `L` and
`T` are the global line and text states: markers are `0` or `1`; the line,
markers and label are forced (alpha `1`) only simultaneously; and a non-forced
line (resp. label) always sits at the current global default. -/
def EntryInv (L T : Alpha) (e : SceneEntryState) : Prop :=
  (e.markers = 1 ∨ e.markers = 0) ∧
  (e.line = 1 ↔ e.markers = 1) ∧
  (e.label = 1 ↔ e.markers = 1) ∧
  (e.line = 1 ∨ e.line = L) ∧
  (e.label = 1 ∨ e.label = T)

/-- Machine-level invariant: the global toggles hold either `0` or their
configured default, and every entry satisfies `EntryInv`. -/
def MachineInv (s : MachineState) : Prop :=
  (s.line_alpha_state = 0 ∨ s.line_alpha_state = lineAlphaDefault) ∧
  (s.text_alpha_state = 0 ∨ s.text_alpha_state = textAlphaDefault) ∧
  ∀ p ∈ s.entries, EntryInv s.line_alpha_state s.text_alpha_state p.2

/-- The events claim C2 ranges over: Pick, ToggleText (`a`), ToggleLines
(`t`) and CycleDate (arrow keys). -/
def AllowedEvent : Event → Prop
  | .pick _ => True
  | .keyPress k => k = "a" ∨ k = "t" ∨ k = "left" ∨ k = "right"

/-- The alpha channels `EntryInv` constrains: line, markers, label. -/
def coreOf (e : SceneEntryState) : Alpha × Alpha × Alpha :=
  (e.line, e.markers, e.label)

/-- The line/markers/label channels of every entry, in order (date-label
cycling touches everything else but none of these). -/
def coresOf (s : MachineState) : List (String × (Alpha × Alpha × Alpha)) :=
  s.entries.map (fun p => (p.1, coreOf p.2))

instance {α : Type} : IsTotal (Date × α) (fun p q => p.1 ≤ q.1) :=
  ⟨fun a b => le_total a.1 b.1⟩

instance {α : Type} : IsTrans (Date × α) (fun p q => p.1 ≤ q.1) :=
  ⟨fun _ _ _ h1 h2 => le_trans h1 h2⟩

/-! ## Theorems -/

/-- Check that the raw literal for the default text alpha is `0.6`. -/
theorem textAlphaDefault_eq : textAlphaDefault = 3 / 5 := by
  rw [show textAlphaDefault = Rat.mk' 3 5 (by decide) (by decide) from rfl]
  rw [Rat.mk'_eq_divInt, Rat.divInt_eq_div]
  norm_num

/-- Check that the raw literal for the default line alpha is `0.5`. -/
theorem lineAlphaDefault_eq : lineAlphaDefault = 1 / 2 := by
  rw [show lineAlphaDefault = Rat.mk' 1 2 (by decide) (by decide) from rfl]
  rw [Rat.mk'_eq_divInt, Rat.divInt_eq_div]
  norm_num

/-! ## Theorems: unknown keys (claim C10) -/

/-- Claim C10: a key-press event whose key is not one of
`{delete, a, t, h, left, right}` leaves the entire interaction state
unchanged and triggers no redraw. -/
theorem C10_unknown_key_ignored (key : String) (s : MachineState)
    (h : key ∉ (["delete", "a", "t", "h", "left", "right"] : List String)) :
    on_key_press key s = (s, false) := by
  simp only [List.mem_cons, List.not_mem_nil, or_false, not_or] at h
  obtain ⟨h1, h2, h3, h4, h5, h6⟩ := h
  simp [on_key_press, h1, h2, h3, h4, h5, h6]

/-- Witness for C10 at the concrete key `"x"`. -/
theorem C10_witness : on_key_press "x" init0 = (init0, false) :=
  C10_unknown_key_ignored "x" init0 (by decide)

/-! ## Theorems: quadrant classifier (claim C7) -/

/-- Claim C7: `_get_color` partitions the plane strictly at `x = 100`,
`y = 100` into four fixed pairwise-distinct colors (Leading `#008217`,
Weakening `#918000`, Improving `#00749D`, Lagging `#E0002B`); the boundary
point `(100, 100)` is Lagging and `(100.1, 100.1)` is Leading. -/
theorem C7_get_color_quadrants :
    (∀ x y : ℝ,
      (x > 100 → y > 100 → get_color x y = "#008217") ∧
      (x > 100 → y ≤ 100 → get_color x y = "#918000") ∧
      (x ≤ 100 → y > 100 → get_color x y = "#00749D") ∧
      (x ≤ 100 → y ≤ 100 → get_color x y = "#E0002B")) ∧
    (∀ x y : ℝ,
      get_color x y = "#008217" ∨ get_color x y = "#918000" ∨
      get_color x y = "#00749D" ∨ get_color x y = "#E0002B") ∧
    (["#008217", "#918000", "#00749D", "#E0002B"] : List String).Nodup ∧
    get_color 100 100 = "#E0002B" ∧
    get_color (100.1 : ℝ) (100.1 : ℝ) = "#008217" := by
  refine ⟨fun x y => ?_, fun x y => ?_, by decide, ?_, ?_⟩
  · refine ⟨fun hx hy => ?_, fun hx hy => ?_, fun hx hy => ?_, fun hx hy => ?_⟩ <;>
      simp [get_color, hx, hy, not_lt_of_le, *]
  · by_cases hx : x > 100 <;> by_cases hy : y > 100 <;> simp [get_color, hx, hy]
  · norm_num [get_color]
  · norm_num [get_color]

/-- Witness for C7 at a concrete interior point of the Weakening quadrant. -/
theorem C7_witness : get_color 101 99 = "#918000" :=
  ((C7_get_color_quadrants.1 101 99).2.1 (by norm_num) (by norm_num))

/-! ## Theorems: global toggles (claim C5) -/

/-- Counterexample to claim C5 as stated: at the freshly plotted state the
single entry's tail markers are at alpha `0` (not forced), yet `ToggleLines`
leaves them at `0` instead of applying the new global line default
`lineAlphaDefault`. -/
theorem C5_counterexample :
    (toggle_lines init0).1.entries.map (fun p => p.2.markers) = [0] ∧
    (toggle_lines init0).1.line_alpha_state = lineAlphaDefault ∧
    init0.entries.map (fun p => p.2.markers) = [0] ∧
    (0 : Alpha) ≠ 1 ∧ (0 : Alpha) ≠ lineAlphaDefault := by
  decide

/-- Claim C5 as amended: `ToggleText` applies the new global default alpha to
every label whose alpha is not `1`, leaves labels at alpha `1` unchanged,
and flips the global text state; `ToggleLines` does the same for the tail
paths only — tail markers are left unchanged — and flips the global line
state.  The structure literals record that no other field of an entry is
modified. -/
theorem C5_amended (s : MachineState) :
    (toggle_text s).1.text_alpha_state
      = (if s.text_alpha_state = 0 then textAlphaDefault else 0) ∧
    (toggle_lines s).1.line_alpha_state
      = (if s.line_alpha_state = 0 then lineAlphaDefault else 0) ∧
    (∀ i p, s.entries.get? i = some p →
      (toggle_text s).1.entries.get? i =
        some (p.1, { p.2 with label := if p.2.label = 1 then p.2.label
                       else if s.text_alpha_state = 0 then textAlphaDefault else 0 })) ∧
    (∀ i p, s.entries.get? i = some p →
      (toggle_lines s).1.entries.get? i =
        some (p.1, { p.2 with line := if p.2.line = 1 then p.2.line
                       else if s.line_alpha_state = 0 then lineAlphaDefault else 0 })) := by
  refine ⟨rfl, rfl, fun i p hp => ?_, fun i p hp => ?_⟩ <;>
    · obtain ⟨u, el, em, ela, ed⟩ := p
      simp only [toggle_text, toggle_lines, List.get?_map, hp, Option.map_some]
      by_cases h1 : ela = 1 <;> by_cases h2 : el = 1 <;> simp [h1, h2]

/-- Witness for C5 at the fresh single-entry state. -/
theorem C5_witness :
    (toggle_lines init0).1.entries.get? 0 =
      some ("s0", { entry0 with line := lineAlphaDefault }) := by
  have h := (C5_amended init0).2.2.2 0 ("s0", entry0) rfl
  simpa [entry0, init0] using h

/-! ## Theorems: benchmark preconditions of plot (claim C4) -/

/-- Claim C4: `plot` fails fatally — before any scene entry is built (an
`Except.error` result carries no scene) — whenever the benchmark series is
absent, empty, or shorter than
`minimum_data_length = 2 * WINDOW + max(WINDOW, PERIOD) + tail_count`
(with the constructor's `tail_count` clamped to at least `2`). -/
theorem C4_benchmark_preconditions (w period tc : ℕ) (bd : Option Date)
    (loader : String → Option Series) (benchmark : String) (wl : List String) :
    (loader benchmark = none →
      plot w period bd tc loader benchmark wl = .error .benchmarkLoadFailure) ∧
    (∀ bm, loader benchmark = some bm → bm = [] →
      plot w period bd tc loader benchmark wl = .error .benchmarkLoadFailure) ∧
    (∀ bm, loader benchmark = some bm → bm ≠ [] →
      bm.length < minimum_data_length w period (max 2 tc) →
      plot w period bd tc loader benchmark wl = .error .benchmarkInsufficient) := by
  refine ⟨fun h => ?_, fun bm h hbm => ?_, fun bm h hbm hlen => ?_⟩
  · simp [plot, h]
  · simp [plot, h, hbm]
  · simp [plot, h, List.isEmpty_iff, hbm, hlen]

/-- Witness for C4: an absent benchmark aborts the plot. -/
theorem C4_witness :
    plot 14 52 none 4 (fun _ => none) "SPY" ["AAPL"] = .error .benchmarkLoadFailure :=
  (C4_benchmark_preconditions 14 52 4 none (fun _ => none) "SPY" ["AAPL"]).1 rfl

/-! ## Theorems: date cycling (claim C6) -/

/-- The first CycleDate(next) press on the freshly highlighted entry reveals
date label `0` and leaves the cursor at `0`. -/
theorem pressNext_cycleStart : pressNext cycleStart = cycleUnit 0 := by decide

/-- A CycleDate(next) press on the cycling state with cursor `j < 4` hides the
revealed label and moves the cursor to `(j + 1) % 4`. -/
theorem pressNext_cycleUnit (j : ℕ) (hj : j < 4) :
    pressNext (cycleUnit j) = cycleUnit ((j + 1) % 4) := by
  interval_cases j <;> decide

/-- The first CycleDate(prev) press also reveals date label `0`. -/
theorem pressPrev_cycleStart : pressPrev cycleStart = cycleUnit 0 := by decide

/-- A CycleDate(prev) press moves the cursor from `j < 4` to `(j + 3) % 4`
(Python's `(j - 1) % 4`). -/
theorem pressPrev_cycleUnit (j : ℕ) (hj : j < 4) :
    pressPrev (cycleUnit j) = cycleUnit ((j + 3) % 4) := by
  interval_cases j <;> decide

/-- Claim C6: `_cycle_dates` is a silent no-op (no state change, no redraw)
whenever the machine is not cursorable; on the highlighted 4-tail-date entry,
the `(n + 1)`-st CycleDate(next) press reaches the state with exactly date
label `n % 4` revealed and cursor `n % 4` — the visit order `0, 1, 2, 3, 0,
...` — and the `(n + 1)`-st CycleDate(prev) press reaches label and cursor
`(4 - n % 4) % 4` — the visit order `0, 3, 2, 1, 0, ...`; the cursor is
always the press count taken modulo the tail length `4`. -/
theorem C6_cycle_dates :
    (∀ (s : MachineState) (key : String),
       s.tabbable = false → cycle_dates key s = (s, false)) ∧
    (∀ n : ℕ, pressNext^[n + 1] cycleStart = cycleUnit (n % 4)) ∧
    (∀ n : ℕ, pressPrev^[n + 1] cycleStart = cycleUnit ((4 - n % 4) % 4)) := by
  refine ⟨fun s key h => by simp [cycle_dates, h], fun n => ?_, fun n => ?_⟩
  · induction n with
    | zero => simpa using pressNext_cycleStart
    | succ n ih =>
      rw [Function.iterate_succ_apply', ih,
          pressNext_cycleUnit (n % 4) (Nat.mod_lt _ (by norm_num))]
      congr 1
      omega
  · induction n with
    | zero => simpa using pressPrev_cycleStart
    | succ n ih =>
      rw [Function.iterate_succ_apply', ih,
          pressPrev_cycleUnit ((4 - n % 4) % 4) (Nat.mod_lt _ (by norm_num))]
      congr 1
      omega

/-- Witness for C6: a non-cursorable state ignores the arrow key, and three
next-presses reveal date label `2`. -/
theorem C6_witness :
    cycle_dates "left" init0 = (init0, false) ∧
    pressNext^[3] cycleStart = cycleUnit 2 := by
  refine ⟨C6_cycle_dates.1 init0 "left" rfl, ?_⟩
  simpa using C6_cycle_dates.2.1 2

/-! ## Theorems: ClearAll (claim C2) -/

/-- Counterexample to claim C2 as stated: after `Pick` followed by `ClearAll`
the highlight count is still `1` (it is only reset when date labels were
active), and after `Pick, CycleDate(next), CycleDate(next), ClearAll` the
cursor index is still `1` (`_clear_all` resets `tabbable`, never `tabindex`).
The claim predicts `0` for both. -/
theorem C2_counterexample :
    (runEvents init0 [Event.pick "s0", Event.keyPress "delete"]).highlighted_count = 1 ∧
    (runEvents init0 [Event.pick "s0", Event.keyPress "delete"]).tabbable = true ∧
    (runEvents init2 [Event.pick "s1", Event.keyPress "right", Event.keyPress "right",
        Event.keyPress "delete"]).tabindex = 1 := by
  decide

/-! ## Theorems: series normalizer (claim C8) -/

/-- Counterexample to claim C8 as stated: for the unsorted two-point series
`[(2, 0), (1, 1)]` the normalizer output, by value, is `[1, 0]`, which is not
a subsequence of the de-duplicated input's values `[0, 1]` — sorting reorders
the surviving rows, so the output is a permutation, not a subsequence. -/
theorem C8_counterexample :
    ¬ ((process_ser [((2 : ℤ), (0 : ℝ)), (1, 1)]).map Prod.snd).Sublist
        ((dropDuplicateDates [] [((2 : ℤ), (0 : ℝ)), (1, 1)]).map Prod.snd) := by
  intro h
  have h2 : process_ser [((2 : ℤ), (0 : ℝ)), (1, 1)] = [(1, 1), (2, 0)] := by rfl
  have h3 : dropDuplicateDates [] [((2 : ℤ), (0 : ℝ)), (1, 1)] =
      [(2, 0), (1, 1)] := rfl
  rw [h2, h3] at h
  simp only [List.map_cons, List.map_nil] at h
  have h4 := h.eq_of_length (by simp)
  have h5 : (1 : ℝ) = 0 := by
    have h6 := congrArg (fun l => l.headI) h4
    simp at h6
  norm_num at h5

/-- The dates surviving `dropDuplicateDates` are duplicate-free and disjoint
from the `seen` accumulator. -/
theorem dropDuplicateDates_nodup {α : Type} (seen : List Date)
    (s : List (Date × α)) :
    (datesOf (dropDuplicateDates seen s)).Nodup ∧
    ∀ d ∈ datesOf (dropDuplicateDates seen s), d ∉ seen := by
  induction s generalizing seen with
  | nil => simp [dropDuplicateDates, datesOf]
  | cons p ps ih =>
    by_cases hp : p.1 ∈ seen
    · simpa only [dropDuplicateDates, if_pos hp] using ih seen
    · obtain ⟨ihn, ihm⟩ := ih (p.1 :: seen)
      simp only [dropDuplicateDates, if_neg hp, datesOf, List.map_cons,
        List.nodup_cons]
      refine ⟨⟨fun hmem => ?_, ihn⟩, fun d hd => ?_⟩
      · exact (ihm p.1 hmem) (List.mem_cons_self _ _)
      · rcases List.mem_cons.mp hd with h | h
        · intro hds
          exact hp (h ▸ hds)
        · intro hds
          exact (ihm d h) (List.mem_cons_of_mem _ hds)

/-- On a series whose dates are already unique and avoid `seen`,
`dropDuplicateDates` is the identity. -/
theorem dropDuplicateDates_eq_self {α : Type} (seen : List Date)
    (s : List (Date × α)) (h : (datesOf s).Nodup)
    (hdisj : ∀ d ∈ datesOf s, d ∉ seen) :
    dropDuplicateDates seen s = s := by
  induction s generalizing seen with
  | nil => rfl
  | cons p ps ih =>
    simp only [datesOf, List.map_cons, List.nodup_cons] at h
    have hp : p.1 ∉ seen := hdisj p.1 (by simp [datesOf])
    simp only [dropDuplicateDates, if_neg hp, List.cons.injEq, true_and]
    refine ih (p.1 :: seen) h.2 (fun d hd => ?_)
    simp only [List.mem_cons, not_or]
    exact ⟨fun he => h.1 (he ▸ hd), hdisj d (List.mem_cons_of_mem _ hd)⟩

/-- Membership in `dropDuplicateDates`: the survivors at date `d` outside
`seen` are exactly the first input occurrence at that date. -/
theorem mem_dropDuplicateDates {α : Type} (seen : List Date)
    (s : List (Date × α)) (d : Date) (v : α) :
    (d, v) ∈ dropDuplicateDates seen s ↔
      d ∉ seen ∧ s.find? (fun p => p.1 == d) = some (d, v) := by
  induction s generalizing seen with
  | nil => simp [dropDuplicateDates]
  | cons p ps ih =>
    by_cases hd : p.1 = d
    · subst hd
      have hfind : List.find? (fun q => q.1 == p.1) (p :: ps) = some p :=
        List.find?_cons_of_pos _ (by simp)
      rw [hfind]
      by_cases hp : p.1 ∈ seen
      · rw [dropDuplicateDates, if_pos hp, ih seen]
        constructor
        · rintro ⟨hns, -⟩
          exact absurd hp hns
        · rintro ⟨hns, -⟩
          exact absurd hp hns
      · rw [dropDuplicateDates, if_neg hp, List.mem_cons]
        constructor
        · rintro (he | hm)
          · refine ⟨hp, ?_⟩
            rw [← he]
          · have h2 := (ih (p.1 :: seen)).mp hm
            exact absurd (List.mem_cons_self _ _) h2.1
        · rintro ⟨-, he⟩
          rw [Option.some.injEq] at he
          exact Or.inl he.symm
    · have hfind : List.find? (fun q => q.1 == d) (p :: ps) =
          List.find? (fun q => q.1 == d) ps :=
        List.find?_cons_of_neg _ (by simp [hd])
      rw [hfind]
      by_cases hp : p.1 ∈ seen
      · rw [dropDuplicateDates, if_pos hp, ih seen]
      · rw [dropDuplicateDates, if_neg hp, List.mem_cons, ih (p.1 :: seen)]
        constructor
        · rintro (he | ⟨hns, hf⟩)
          · exact absurd (congrArg Prod.fst he).symm hd
          · exact ⟨fun hds => hns (List.mem_cons_of_mem _ hds), hf⟩
        · rintro ⟨hns, hf⟩
          refine Or.inr ⟨?_, hf⟩
          simp only [List.mem_cons, not_or]
          exact ⟨fun he => hd he.symm, hns⟩

/-- The normalizer's output is a permutation of the first-occurrence
de-duplication of its input. -/
theorem process_ser_perm {α : Type} (s : List (Date × α)) :
    (process_ser s).Perm (dropDuplicateDates [] s) := by
  rw [process_ser]
  by_cases h1 : (datesOf s).Nodup
  · have he : dropDuplicateDates [] s = s :=
      dropDuplicateDates_eq_self [] s h1 (by simp)
    simp only [h1, not_true_eq_false, if_false, he]
    by_cases h2 : (datesOf s).Pairwise (· ≤ ·)
    · simp [h2]
    · simp only [h2, not_false_eq_true, if_true]
      exact List.perm_insertionSort _ s
  · simp only [h1, not_false_eq_true, if_true]
    by_cases h2 : (datesOf (dropDuplicateDates [] s)).Pairwise (· ≤ ·)
    · simp [h2]
    · simp only [h2, not_false_eq_true, if_true]
      exact List.perm_insertionSort _ _

/-- Helper: the monotonicity-check-and-sort stage of `_process_ser` always
produces non-strictly ascending dates. -/
theorem sortStage_sorted {α : Type} (s1 : List (Date × α)) :
    (datesOf (if ¬ (datesOf s1).Pairwise (· ≤ ·) then sortByDate s1
              else s1)).Pairwise (· ≤ ·) := by
  by_cases h2 : (datesOf s1).Pairwise (· ≤ ·)
  · rw [if_neg (not_not_intro h2)]
    exact h2
  · rw [if_pos h2]
    have hs := List.sorted_insertionSort (fun p q : Date × α => p.1 ≤ q.1) s1
    exact List.Pairwise.map Prod.fst (fun _ _ h => h) hs

/-- The normalizer's output has strictly ascending dates. -/
theorem process_ser_sorted {α : Type} (s : List (Date × α)) :
    (datesOf (process_ser s)).Pairwise (· < ·) := by
  have hnd : (datesOf (process_ser s)).Nodup := by
    have hperm : (datesOf (process_ser s)).Perm
        (datesOf (dropDuplicateDates [] s)) := (process_ser_perm s).map Prod.fst
    exact hperm.nodup_iff.mpr (dropDuplicateDates_nodup [] s).1
  have hle : (datesOf (process_ser s)).Pairwise (· ≤ ·) :=
    sortStage_sorted (if ¬ (datesOf s).Nodup then dropDuplicateDates [] s else s)
  exact (hle.and hnd).imp (fun h => lt_of_le_of_ne h.1 h.2)

/-- Claim C8 as amended: for every date-indexed series — duplicate or
unsorted dates included — `_process_ser` returns a series with unique,
strictly ascending dates, containing exactly the first input occurrence of
each date, and the output is a permutation (not in general a subsequence) of
the first-occurrence de-duplicated input; the function is pure (a Lean
function of its input). -/
theorem C8_amended (s : Series) :
    (datesOf (process_ser s)).Pairwise (· < ·) ∧
    (process_ser s).Perm (dropDuplicateDates [] s) ∧
    ∀ d v, (d, v) ∈ process_ser s ↔ s.find? (fun p => p.1 == d) = some (d, v) := by
  refine ⟨process_ser_sorted s, process_ser_perm s, fun d v => ?_⟩
  rw [(process_ser_perm s).mem_iff, mem_dropDuplicateDates]
  simp

/-- Witness for C8 on a series with a duplicate date and unsorted order:
`process_ser [(2, 5), (1, 7), (2, 9)]` keeps `(2, 5)` (the first occurrence)
and not `(2, 9)`. -/
theorem C8_witness :
    (datesOf (process_ser [((2 : ℤ), (5 : ℝ)), (1, 7), (2, 9)])).Pairwise (· < ·) ∧
    (((2 : ℤ), (5 : ℝ)) ∈ process_ser [((2 : ℤ), (5 : ℝ)), (1, 7), (2, 9)]) ∧
    ¬ (((2 : ℤ), (9 : ℝ)) ∈ process_ser [((2 : ℤ), (5 : ℝ)), (1, 7), (2, 9)]) := by
  have h := C8_amended [((2 : ℤ), (5 : ℝ)), (1, 7), (2, 9)]
  refine ⟨h.1, ?_, ?_⟩
  · exact (h.2.2 2 5).mpr (by rfl)
  · intro hm
    have h2 := (h.2.2 2 9).mp hm
    have h3 : List.find? (fun p => p.1 == (2 : ℤ))
        [((2 : ℤ), (5 : ℝ)), (1, 7), (2, 9)] = some (2, 5) := by rfl
    rw [h3] at h2
    have h4 : (5 : ℝ) = 9 := congrArg Prod.snd (Option.some.injEq _ _ ▸ h2)
    norm_num at h4

/-! ## Theorems: momentum base selection (claim C9) -/

/-- Helper: for `1 ≤ p ≤ len`, Python's `xs[-p]` is the element `p`
observations before the end, at position `len - p`. -/
theorem pythonGet_neg (xs : Series) (p : ℕ) (h1 : 1 ≤ p) (h2 : p ≤ xs.length) :
    pythonGet xs (-(p : ℤ)) = xs.get? (xs.length - p) := by
  unfold pythonGet
  have hneg : ¬ (0 ≤ -(p : ℤ)) := by omega
  rw [if_neg hneg]
  have hj : 0 ≤ (xs.length : ℤ) + -(p : ℤ) := by omega
  rw [if_pos hj]
  congr 1
  omega

/-- Claim C9: `_calculate_momentum` uses as base value the ratio value at the
configured `BASE_DATE` whenever one is configured and present — including
when it is the first date of the series —, and otherwise the value `PERIOD`
observations before the end (`rs_ratio.iloc[-PERIOD]`, position
`len - PERIOD`); the output is the rate-of-change series
`(rs_ratio / base - 1) * 100` passed through the same rolling-normalize
transform `normalizeRolling` with window `w`. -/
theorem C9_momentum_base (w period : ℕ) (rs_r : Series) :
    (∀ (d : Date) (v : ℝ), lookupDate rs_r d = some v →
      calculate_momentum w period (some d) rs_r =
        .ok (normalizeRolling w (toOptionSeries (rocSeries v rs_r)))) ∧
    (∀ (p0 : Date × ℝ) (rest : Series), rs_r = p0 :: rest →
      calculate_momentum w period (some p0.1) rs_r =
        .ok (normalizeRolling w (toOptionSeries (rocSeries p0.2 rs_r)))) ∧
    (1 ≤ period → period ≤ rs_r.length →
      rs_r.length - period < rs_r.length ∧
      calculate_momentum w period none rs_r =
        .ok (normalizeRolling w (toOptionSeries
          (rocSeries (rs_r.getD (rs_r.length - period) (0, 0)).2 rs_r)))) := by
  refine ⟨fun d v h => ?_, fun p0 rest hr => ?_, fun h1 h2 => ?_⟩
  · simp only [calculate_momentum, h]
  · have hfind : List.find? (fun q => q.1 == p0.1) (p0 :: rest) = some p0 :=
      List.find?_cons_of_pos _ (by simp)
    have h : lookupDate rs_r p0.1 = some p0.2 := by
      rw [hr]
      simp only [lookupDate, hfind, Option.map_some']
    simp only [calculate_momentum, h]
  · have hlt : rs_r.length - period < rs_r.length := by omega
    refine ⟨hlt, ?_⟩
    have hget : pythonGet rs_r (-(period : ℤ)) =
        some (rs_r.getD (rs_r.length - period) (0, 0)) := by
      rw [pythonGet_neg rs_r period h1 h2, List.get?_eq_get hlt,
          List.getD_eq_get rs_r (0, 0) hlt]
    simp only [calculate_momentum, hget]

/-- Witness for C9: a configured base date that is the first date of the
concrete ratio series, and the default lookback on the same series. -/
theorem C9_witness :
    calculate_momentum 14 52 (some 0) [((0 : ℤ), (100 : ℝ)), (1, 101)] =
      .ok (normalizeRolling 14 (toOptionSeries
        (rocSeries 100 [((0 : ℤ), (100 : ℝ)), (1, 101)]))) ∧
    calculate_momentum 14 1 none [((0 : ℤ), (100 : ℝ)), (1, 101)] =
      .ok (normalizeRolling 14 (toOptionSeries
        (rocSeries ([((0 : ℤ), (100 : ℝ)), (1, 101)].getD 1 (0, 0)).2
          [((0 : ℤ), (100 : ℝ)), (1, 101)]))) := by
  constructor
  · exact (C9_momentum_base 14 52 _).1 0 100 (by rfl)
  · exact ((C9_momentum_base 14 1 _).2.2 (by norm_num) (by norm_num)).2

/-! ## Theorems: error handling in the watchlist loop (claims C1) -/

/-- Counterexample to claim C1 as stated: with `BASE_DATE = 999` configured
but absent, ticker `"T1"`'s momentum base lookup raises, and `plot` — which
has no handler around `_calculate_momentum` — aborts with that error instead
of skipping `"T1"`; no scene entry is built for the healthy remaining ticker
`"T2"`. -/
theorem C1_counterexample :
    plot 2 2 (some 999) 2 loaderC1 "SPY" ["T1", "T2"] =
      .error .momLookupFailure := by
  rfl

/-- Claim C1 as amended: a ticker whose series is absent or empty, or whose
ratio/momentum series are shorter than `tail_count`, is skipped (with a
warning) and the rest of the watchlist is still processed; but a momentum
base-lookup failure is not caught — it aborts the whole watchlist loop with
that error. -/
theorem C1_amended (w period tailCount : ℕ) (bd : Option Date)
    (loader : String → Option Series) (bmCloses : Series) (i : ℕ)
    (t : String) (ts : List String) (sym short : String)
    (hsplit : splitTicker t = .ok (sym, short)) :
    (loader sym = none →
      plotLoop w period tailCount bd loader bmCloses i (t :: ts) =
        plotLoop w period tailCount bd loader bmCloses (i + 1) ts) ∧
    (loader sym = some [] →
      plotLoop w period tailCount bd loader bmCloses i (t :: ts) =
        plotLoop w period tailCount bd loader bmCloses (i + 1) ts) ∧
    (∀ df me, loader sym = some df → df ≠ [] →
      calculate_momentum w period bd (calculate_rs w (process_ser df) bmCloses) =
        .error me →
      plotLoop w period tailCount bd loader bmCloses i (t :: ts) =
        .error me.toPlotErr) ∧
    (∀ df rsm, loader sym = some df → df ≠ [] →
      calculate_momentum w period bd (calculate_rs w (process_ser df) bmCloses) =
        .ok rsm →
      min rsm.length (calculate_rs w (process_ser df) bmCloses).length < tailCount →
      plotLoop w period tailCount bd loader bmCloses i (t :: ts) =
        plotLoop w period tailCount bd loader bmCloses (i + 1) ts) := by
  refine ⟨fun h => ?_, fun h => ?_,
         fun df me h hdf hmom => ?_, fun df rsm h hdf hmom hlen => ?_⟩
  · simp only [plotLoop, plotTicker, hsplit, h]
    cases hrec : plotLoop w period tailCount bd loader bmCloses (i + 1) ts <;> simp
  · simp only [plotLoop, plotTicker, hsplit, h, List.isEmpty_nil, if_true]
    cases hrec : plotLoop w period tailCount bd loader bmCloses (i + 1) ts <;> simp
  · have hne : df.isEmpty = false := by
      simp [List.isEmpty_iff, hdf]
    simp only [plotLoop, plotTicker, hsplit, h, hne, Bool.false_eq_true,
      if_false, hmom]
  · have hne : df.isEmpty = false := by
      simp [List.isEmpty_iff, hdf]
    simp only [plotLoop, plotTicker, hsplit, h, hne, Bool.false_eq_true,
      if_false, hmom, if_pos hlen]
    cases hrec : plotLoop w period tailCount bd loader bmCloses (i + 1) ts <;> simp

/-- Witness for C1: the concrete momentum lookup failure of `"T1"` aborts the
loop. -/
theorem C1_witness :
    plotLoop 2 2 2 (some 999) loaderC1 (process_ser bmSeries) 0 ["T1"] =
      .error PlotErr.momLookupFailure :=
  (C1_amended 2 2 2 (some 999) loaderC1 (process_ser bmSeries) 0 "T1" []
      "T1" "T1" rfl).2.2.1 t1Series MomErr.lookupFailure rfl
    (by simp [t1Series]) (by rfl)

/-! ## Theorems: the RS-ratio transform (claim C3) -/

/-- Helper: collecting an all-finite optional list succeeds. -/
theorem allSome_map_some (l : List ℝ) : allSome (l.map some) = some l := by
  induction l with
  | nil => rfl
  | cons x xs ih => simp [allSome, ih]

/-- Helper: window slicing commutes with mapping. -/
theorem windowSlice_map {α β : Type} (f : α → β) (xs : List α) (w i : ℕ) :
    windowSlice (xs.map f) w i = (windowSlice xs w i).map f := by
  simp [windowSlice, List.map_take, List.map_drop]

/-- Helper: a strictly sorted date list is its own pandas index union. -/
theorem mergedDates_self (ds : List Date) (h : ds.Pairwise (· < ·)) :
    mergedDates ds ds = ds := by
  have hnd : ds.Nodup := h.imp (fun hlt => ne_of_lt hlt)
  have hperm : ((ds ++ ds).dedup).Perm ds := by
    apply List.perm_of_nodup_nodup_toFinset_eq (List.nodup_dedup _) hnd
    ext a
    simp [List.mem_toFinset, List.mem_dedup]
  have hsorted2 : List.Sorted (· ≤ ·) ds := h.imp (fun hlt => le_of_lt hlt)
  exact List.eq_of_perm_of_sorted
    ((List.perm_insertionSort _ _).trans hperm)
    (List.sorted_insertionSort _ _) hsorted2

/-- Helper: looking a date up in a zipped series finds the positional value
when the dates are unique. -/
theorem lookup_zip (ds : List Date) (sv : List ℝ) (hnd : ds.Nodup) (i : ℕ)
    (d : Date) (v : ℝ) (hd : ds.get? i = some d) (hv : sv.get? i = some v) :
    lookupDate (ds.zip sv) d = some v := by
  induction ds generalizing sv i with
  | nil => simp at hd
  | cons a ds' ih =>
    cases sv with
    | nil => simp at hv
    | cons x sv' =>
      cases i with
      | zero =>
        rw [List.get?_cons_zero, Option.some.injEq] at hd hv
        subst hd
        subst hv
        have hfind : List.find? (fun q => q.1 == a) ((a, x) :: ds'.zip sv') =
            some (a, x) := List.find?_cons_of_pos _ (by simp)
        simp [lookupDate, List.zip_cons_cons, hfind]
      | succ n =>
        rw [List.get?_cons_succ] at hd hv
        have hmem : d ∈ ds' := List.get?_mem hd
        have hne : a ≠ d := fun he => (List.nodup_cons.mp hnd).1 (he ▸ hmem)
        have hrec : lookupDate (ds'.zip sv') d = some v :=
          ih sv' (List.nodup_cons.mp hnd).2 n hd hv
        have hfind : List.find? (fun q => q.1 == d) ((a, x) :: ds'.zip sv') =
            List.find? (fun q => q.1 == d) (ds'.zip sv') :=
          List.find?_cons_of_neg _ (by simp [hne])
        simpa [lookupDate, List.zip_cons_cons, hfind] using hrec

/-- Helper: on two series sharing one strictly sorted date index, pandas
alignment is the identity and the division is positional. -/
theorem alignedDiv_zip (ds : List Date) (sv bv : List ℝ)
    (hsorted : ds.Pairwise (· < ·)) (hs : sv.length = ds.length)
    (hb : bv.length = ds.length) :
    alignedDiv (ds.zip sv) (ds.zip bv) =
      (ds.zip (List.zipWith (fun s b => s / b * 100) sv bv)).map
        (fun p => (p.1, some p.2)) := by
  have hnd : ds.Nodup := hsorted.imp (fun hlt => ne_of_lt hlt)
  have hds1 : datesOf (ds.zip sv) = ds := by
    rw [datesOf, List.map_fst_zip]
    omega
  have hds2 : datesOf (ds.zip bv) = ds := by
    rw [datesOf, List.map_fst_zip]
    omega
  rw [alignedDiv, hds1, hds2, mergedDates_self ds hsorted]
  apply List.ext_get
  · simp only [List.length_map, List.length_zip, List.length_zipWith, hs, hb]
    omega
  · intro n h1 h2
    have hn : n < ds.length := by simpa using h1
    have hnsv : n < sv.length := by omega
    have hnbv : n < bv.length := by omega
    have hl1 : lookupDate (ds.zip sv) (ds.get ⟨n, hn⟩) = some (sv.get ⟨n, hnsv⟩) :=
      lookup_zip ds sv hnd n _ _ (List.get?_eq_get hn) (List.get?_eq_get hnsv)
    have hl2 : lookupDate (ds.zip bv) (ds.get ⟨n, hn⟩) = some (bv.get ⟨n, hnbv⟩) :=
      lookup_zip ds bv hnd n _ _ (List.get?_eq_get hn) (List.get?_eq_get hnbv)
    simp only [List.get_map, List.get_zip, List.get_zipWith, hl1, hl2]

/-- Helper: the rolling transform of a NaN-free series, elementwise: keep
exactly the positions with a full window and nonzero rolling standard
deviation, at the value `(x - mean) / std + 100`. -/
theorem normalizeRolling_toOption (w : ℕ) (l : List (Date × ℝ)) :
    normalizeRolling w (toOptionSeries l) =
      (List.range l.length).filterMap (fun i =>
        if w ≤ i + 1 ∧ rollingStdVal (windowSlice (l.map Prod.snd) w i) w ≠ 0 then
          some ((l.getD i (0, 0)).1,
                ((l.getD i (0, 0)).2 -
                  rollingMeanVal (windowSlice (l.map Prod.snd) w i) w) /
                  rollingStdVal (windowSlice (l.map Prod.snd) w i) w + 100)
        else none) := by
  have hlen : (toOptionSeries l).length = l.length := by simp [toOptionSeries]
  rw [normalizeRolling,
      show List.range (toOptionSeries l).length = List.range l.length from by
        rw [hlen]]
  apply List.filterMap_congr
  intro i hi
  rw [List.mem_range] at hi
  have hi' : i < (toOptionSeries l).length := by
    rw [hlen]
    exact hi
  rw [dif_pos hi']
  have hmap : (toOptionSeries l).map Prod.snd = (l.map Prod.snd).map some := by
    simp only [toOptionSeries, List.map_map]
    rfl
  have hget : (toOptionSeries l).get ⟨i, hi'⟩ =
      ((l.get ⟨i, hi⟩).1, some (l.get ⟨i, hi⟩).2) := by
    simp [toOptionSeries, List.get_map]
  simp only [hmap, windowSlice_map, allSome_map_some, hget]
  by_cases hw : i + 1 < w
  · rw [if_pos hw, if_neg (fun hc => absurd hc.1 (by omega))]
  · rw [if_neg hw]
    by_cases hstd : rollingStdVal ((windowSlice l w i).map Prod.snd) w = 0
    · rw [if_pos hstd, if_neg (fun hc => hc.2 hstd)]
    · rw [if_neg hstd, if_pos ⟨by omega, hstd⟩, List.getD_eq_get l (0, 0) hi]

/-- Claim C3: on a pair of aligned input series (one shared, strictly
ascending date index), `_calculate_rs` computes exactly the spec formula
`(rs - rolling_mean(rs)) / rolling_std(rs, ddof=1) + 100` with
`rs = (ticker / benchmark) * 100` over window `w`, dropping the warm-up
prefix with insufficient history and every point whose rolling standard
deviation is zero. -/
theorem C3_rs_refines_spec (w : ℕ) (ds : List Date) (sv bv : List ℝ)
    (hsorted : ds.Pairwise (· < ·)) (hs : sv.length = ds.length)
    (hb : bv.length = ds.length) :
    calculate_rs w (ds.zip sv) (ds.zip bv) = rsSpecSeries w ds sv bv := by
  rw [calculate_rs, alignedDiv_zip ds sv bv hsorted hs hb]
  rw [show (ds.zip (List.zipWith (fun s b => s / b * 100) sv bv)).map
        (fun p => (p.1, some p.2)) =
      toOptionSeries (ds.zip (List.zipWith (fun s b => s / b * 100) sv bv))
      from rfl]
  rw [normalizeRolling_toOption]
  have hrsv : (List.zipWith (fun s b => s / b * 100) sv bv).length = ds.length := by
    rw [List.length_zipWith]
    omega
  have hlen2 : (ds.zip (List.zipWith (fun s b => s / b * 100) sv bv)).length
      = ds.length := by
    rw [List.length_zip]
    omega
  have hsnd : (ds.zip (List.zipWith (fun s b => s / b * 100) sv bv)).map Prod.snd =
      List.zipWith (fun s b => s / b * 100) sv bv :=
    List.map_snd_zip _ _ (by omega)
  rw [hsnd]
  rw [show List.range (ds.zip (List.zipWith (fun s b => s / b * 100) sv bv)).length
        = List.range (List.zipWith (fun s b => s / b * 100) sv bv).length from by
      rw [hlen2, hrsv]]
  simp only [rsSpecSeries]
  apply List.filterMap_congr
  intro i hi
  rw [List.mem_range] at hi
  have hid : i < ds.length := by omega
  by_cases hc : w ≤ i + 1 ∧
      rollingStdVal (windowSlice (List.zipWith (fun s b => s / b * 100) sv bv) w i)
        w ≠ 0
  · rw [if_pos hc, if_pos hc]
    have hzip : (ds.zip (List.zipWith (fun s b => s / b * 100) sv bv)).getD i
        (0, 0) =
        (ds.getD i 0, (List.zipWith (fun s b => s / b * 100) sv bv).getD i 0) := by
      rw [List.getD_eq_get _ _ (by omega), List.getD_eq_get _ _ hid,
          List.getD_eq_get _ _ hi, List.get_zip]
    rw [hzip]
  · rw [if_neg hc, if_neg hc]

/-- Witness for C3 on a concrete aligned pair (dates `0, 1`). -/
theorem C3_witness :
    calculate_rs 2 ([(0 : ℤ), 1].zip [(1 : ℝ), 2]) ([(0 : ℤ), 1].zip [(1 : ℝ), 1])
      = rsSpecSeries 2 [0, 1] [1, 2] [1, 1] :=
  C3_rs_refines_spec 2 [0, 1] [1, 2] [1, 1] (by decide) rfl rfl

/-! ## Theorems: the interaction invariant and ClearAll (claim C2) -/

/-- EntryInv only reads the line/markers/label channels. -/
theorem entryInv_congr (L T : Alpha) (e e' : SceneEntryState)
    (h : coreOf e' = coreOf e) (hinv : EntryInv L T e) : EntryInv L T e' := by
  obtain ⟨h1, h2, h3⟩ : e'.line = e.line ∧ e'.markers = e.markers ∧
      e'.label = e.label := by
    simpa [coreOf, Prod.ext_iff] using h
  unfold EntryInv at hinv ⊢
  rw [h1, h2, h3]
  exact hinv

/-- MachineInv transports along equal toggles and channel lists. -/
theorem machineInv_of_cores (s s' : MachineState)
    (hL : s'.line_alpha_state = s.line_alpha_state)
    (hT : s'.text_alpha_state = s.text_alpha_state)
    (hc : coresOf s' = coresOf s) (h : MachineInv s) : MachineInv s' := by
  obtain ⟨h1, h2, h3⟩ := h
  refine ⟨hL ▸ h1, hT ▸ h2, fun p hp => ?_⟩
  have hmem : (p.1, coreOf p.2) ∈ coresOf s := by
    rw [← hc, coresOf]
    exact List.mem_map_of_mem _ hp
  rw [coresOf] at hmem
  obtain ⟨q, hq, he⟩ := List.mem_map.mp hmem
  rw [Prod.mk.injEq] at he
  rw [hL, hT]
  exact entryInv_congr _ _ q.2 p.2 he.2.symm (h3 q hq)

/-- Mapping a dates-only rewrite over the enumerated entries preserves the
channel list. -/
theorem cores_map_enum (l : List (String × SceneEntryState))
    (f : ℕ × (String × SceneEntryState) → String × SceneEntryState)
    (hf : ∀ q, (f q).1 = q.2.1 ∧ coreOf (f q).2 = coreOf q.2.2) :
    (l.enum.map f).map (fun p => (p.1, coreOf p.2)) =
      l.map (fun p => (p.1, coreOf p.2)) := by
  calc (l.enum.map f).map (fun p => (p.1, coreOf p.2))
      = l.enum.map (fun q => ((f q).1, coreOf (f q).2)) := by
        rw [List.map_map]
        rfl
    _ = l.enum.map (fun q => (q.2.1, coreOf q.2.2)) := by
        apply List.map_congr_left
        intro q _
        rw [(hf q).1, (hf q).2]
    _ = (l.enum.map Prod.snd).map (fun p => (p.1, coreOf p.2)) := by
        rw [List.map_map]
        rfl
    _ = l.map (fun p => (p.1, coreOf p.2)) := by rw [List.enum_map_snd]

/-- Clearing the active date labels changes no channel and no toggle. -/
theorem clearActiveDateLabels_cores (s : MachineState) :
    coresOf (clearActiveDateLabels s) = coresOf s := by
  rw [coresOf, coresOf, clearActiveDateLabels]
  simp only [List.map_map]
  apply List.map_congr_left
  intro p _
  rfl

/-- Setting one date label's alpha changes no channel. -/
theorem setDateAlpha_cores (s : MachineState) (j i : ℕ) (v : Alpha) :
    coresOf (setDateAlpha s j i v) = coresOf s := by
  rw [coresOf, setDateAlpha]
  apply cores_map_enum
  intro q
  by_cases hq : q.1 = j <;> simp [hq, coreOf]

/-- One `_cycle_dates` loop iteration changes no channel and no toggle. -/
theorem cycleEntryAt_cores (step : ℤ) (s : MachineState) (j : ℕ) :
    coresOf (cycleEntryAt step s j) = coresOf s ∧
    (cycleEntryAt step s j).line_alpha_state = s.line_alpha_state ∧
    (cycleEntryAt step s j).text_alpha_state = s.text_alpha_state := by
  cases hget : s.entries[j]? with
  | none =>
    simp only [cycleEntryAt, hget]
    refine ⟨?_, ?_, ?_⟩ <;> trivial
  | some ue =>
    obtain ⟨u, e⟩ := ue
    simp only [cycleEntryAt, hget]
    by_cases hline : e.line = 1
    · rw [if_pos hline]
      cases hd : e.dates[s.tabindex]? with
      | none =>
        simp only [hd]
        refine ⟨?_, ?_, ?_⟩ <;> trivial
      | some a =>
        simp only [hd]
        by_cases ha : a = 0
        · rw [if_pos ha]
          refine ⟨setDateAlpha_cores s j s.tabindex 1, ?_, ?_⟩ <;> trivial
        · rw [if_neg ha]
          refine ⟨?_, ?_, ?_⟩
          · calc coresOf (setDateAlpha
                  { clearActiveDateLabels s with
                    tabindex := (((s.tabindex : ℤ) + step) % (e.dates.length : ℤ)).toNat }
                  j (((s.tabindex : ℤ) + step) % (e.dates.length : ℤ)).toNat 1)
                = coresOf { clearActiveDateLabels s with
                    tabindex := (((s.tabindex : ℤ) + step) % (e.dates.length : ℤ)).toNat } :=
                  setDateAlpha_cores _ _ _ _
              _ = coresOf (clearActiveDateLabels s) := rfl
              _ = coresOf s := clearActiveDateLabels_cores s
          · trivial
          · trivial
    · rw [if_neg hline]
      refine ⟨?_, ?_, ?_⟩ <;> trivial

/-- The whole `_cycle_dates` entry loop changes no channel and no toggle. -/
theorem foldl_cycle_cores (step : ℤ) (l : List ℕ) (s : MachineState) :
    coresOf (l.foldl (cycleEntryAt step) s) = coresOf s ∧
    (l.foldl (cycleEntryAt step) s).line_alpha_state = s.line_alpha_state ∧
    (l.foldl (cycleEntryAt step) s).text_alpha_state = s.text_alpha_state := by
  induction l generalizing s with
  | nil => exact ⟨rfl, rfl, rfl⟩
  | cons j l ih =>
    simp only [List.foldl_cons]
    obtain ⟨h1, h2, h3⟩ := ih (cycleEntryAt step s j)
    obtain ⟨g1, g2, g3⟩ := cycleEntryAt_cores step s j
    exact ⟨h1.trans g1, h2.trans g2, h3.trans g3⟩

/-- CycleDate preserves the interaction invariant. -/
theorem machineInv_cycle_dates (key : String) (s : MachineState)
    (h : MachineInv s) : MachineInv (cycle_dates key s).1 := by
  rw [cycle_dates]
  by_cases ht : s.tabbable = false
  · rw [if_pos ht]
    exact h
  · rw [if_neg ht]
    obtain ⟨h1, h2, h3⟩ := foldl_cycle_cores (if key = "left" then -1 else 1)
      (List.range s.entries.length) s
    exact machineInv_of_cores s _ h2 h3 h1 h

/-- ToggleText preserves the interaction invariant. -/
theorem machineInv_toggle_text (s : MachineState) (h : MachineInv s) :
    MachineInv (toggle_text s).1 := by
  obtain ⟨hL, hT, he⟩ := h
  have halpha : (if s.text_alpha_state = 0 then textAlphaDefault else 0) ≠ 1 := by
    by_cases h0 : s.text_alpha_state = 0
    · rw [if_pos h0]
      decide
    · rw [if_neg h0]
      decide
  refine ⟨hL, ?_, fun p hp => ?_⟩
  · show (if s.text_alpha_state = 0 then textAlphaDefault else 0) = 0 ∨
        (if s.text_alpha_state = 0 then textAlphaDefault else 0) = textAlphaDefault
    by_cases h0 : s.text_alpha_state = 0
    · rw [if_pos h0]
      exact Or.inr rfl
    · rw [if_neg h0]
      exact Or.inl rfl
  · obtain ⟨q, hq, rfl⟩ := List.mem_map.mp hp
    obtain ⟨m1, m2, m3, m4, m5⟩ := he q hq
    dsimp only
    by_cases hlab : q.2.label = 1
    · rw [if_pos hlab]
      exact ⟨m1, m2, m3, m4, Or.inl hlab⟩
    · rw [if_neg hlab]
      exact ⟨m1, m2,
        ⟨fun ha => absurd ha halpha, fun hm => absurd (m3.mpr hm) hlab⟩,
        m4, Or.inr rfl⟩

/-- ToggleLines preserves the interaction invariant. -/
theorem machineInv_toggle_lines (s : MachineState) (h : MachineInv s) :
    MachineInv (toggle_lines s).1 := by
  obtain ⟨hL, hT, he⟩ := h
  have halpha : (if s.line_alpha_state = 0 then lineAlphaDefault else 0) ≠ 1 := by
    by_cases h0 : s.line_alpha_state = 0
    · rw [if_pos h0]
      decide
    · rw [if_neg h0]
      decide
  refine ⟨?_, hT, fun p hp => ?_⟩
  · show (if s.line_alpha_state = 0 then lineAlphaDefault else 0) = 0 ∨
        (if s.line_alpha_state = 0 then lineAlphaDefault else 0) = lineAlphaDefault
    by_cases h0 : s.line_alpha_state = 0
    · rw [if_pos h0]
      exact Or.inr rfl
    · rw [if_neg h0]
      exact Or.inl rfl
  · obtain ⟨q, hq, rfl⟩ := List.mem_map.mp hp
    obtain ⟨m1, m2, m3, m4, m5⟩ := he q hq
    dsimp only
    by_cases hline : q.2.line = 1
    · rw [if_pos hline]
      exact ⟨m1, m2, m3, Or.inl hline, m5⟩
    · rw [if_neg hline]
      exact ⟨m1,
        ⟨fun ha => absurd ha halpha, fun hm => absurd (m2.mpr hm) hline⟩,
        m3, Or.inr rfl, m5⟩

/-- ToggleHelp preserves the interaction invariant. -/
theorem machineInv_toggle_help (s : MachineState) (h : MachineInv s) :
    MachineInv (toggle_help s).1 := h

/-- EntryInv is preserved by the per-entry alpha updates a Pick applies. -/
theorem entryInv_pick_step (L T : Alpha) (e : SceneEntryState) (d : List Alpha)
    (hL : L = 0 ∨ L = lineAlphaDefault) (hT : T = 0 ∨ T = textAlphaDefault)
    (hie : EntryInv L T e) :
    EntryInv L T
      { line := if L = lineAlphaDefault then
                  (if e.line = lineAlphaDefault then 1 else lineAlphaDefault)
                else (if e.line = 0 then 1 else 0),
        markers := if e.markers = 0 then 1 else 0,
        label := if T = textAlphaDefault then
                   (if e.label = textAlphaDefault then 1 else textAlphaDefault)
                 else (if e.label = 0 then 1 else 0),
        dates := d } := by
  obtain ⟨hm, hlm, htm, hlv, htv⟩ := hie
  rcases hm with hm1 | hm0
  · have hline : e.line = 1 := hlm.mpr hm1
    have hlab : e.label = 1 := htm.mpr hm1
    rcases hL with h | h <;> rcases hT with h' | h' <;>
      · subst h
        subst h'
        unfold EntryInv
        simp only [hline, hlab, hm1]
        decide
  · have hlineN : e.line ≠ 1 := by
      intro hf
      have h1 := hlm.mp hf
      rw [h1] at hm0
      exact absurd hm0 (by decide)
    have hline : e.line = L := hlv.resolve_left hlineN
    have hlabN : e.label ≠ 1 := by
      intro hf
      have h1 := htm.mp hf
      rw [h1] at hm0
      exact absurd hm0 (by decide)
    have hlab : e.label = T := htv.resolve_left hlabN
    rcases hL with h | h <;> rcases hT with h' | h' <;>
      · subst h
        subst h'
        unfold EntryInv
        simp only [hline, hlab, hm0]
        decide

/-- The per-entry rewrite a Pick applies to the scene preserves the
interaction invariant (the highlight count and cursorable flag, which the
invariant does not constrain, may change arbitrarily). -/
theorem machineInv_pick_entries (s2 : MachineState) (j : ℕ) (u : String)
    (e : SceneEntryState) (hget : s2.entries[j]? = some (u, e))
    (h2 : MachineInv s2) (C : ℤ) (B : Bool) :
    MachineInv { s2 with
      entries := s2.entries.enum.map (fun q =>
        if q.1 = j then
          (q.2.1, { q.2.2 with
            markers := if e.markers = 0 then 1 else 0,
            line := if s2.line_alpha_state = lineAlphaDefault then
                      (if e.line = lineAlphaDefault then 1 else lineAlphaDefault)
                    else (if e.line = 0 then 1 else 0),
            label := if s2.text_alpha_state = textAlphaDefault then
                       (if e.label = textAlphaDefault then 1 else textAlphaDefault)
                     else (if e.label = 0 then 1 else 0) })
        else q.2),
      highlighted_count := C, tabbable := B } := by
  obtain ⟨hLa, hTa, hent⟩ := h2
  refine ⟨hLa, hTa, fun p hp => ?_⟩
  obtain ⟨q, hq, rfl⟩ := List.mem_map.mp hp
  have hq2 : s2.entries.get? q.1 = some q.2 := List.mem_enum_iff_get?.mp hq
  dsimp only
  by_cases hqj : q.1 = j
  · rw [if_pos hqj]
    rw [hqj] at hq2
    have hq2' : s2.entries[j]? = some q.2 := by
      rw [← List.get?_eq_getElem?]
      exact hq2
    rw [hget] at hq2'
    have hq3 : q.2 = (u, e) := (Option.some.injEq _ _ ▸ hq2').symm
    have hie : EntryInv s2.line_alpha_state s2.text_alpha_state e := by
      have := hent q.2 (List.get?_mem hq2)
      rw [hq3] at this
      exact this
    rw [hq3]
    exact entryInv_pick_step s2.line_alpha_state s2.text_alpha_state e e.dates
      hLa hTa hie
  · rw [if_neg hqj]
    exact hent q.2 (List.get?_mem hq2)

/-- Pick preserves the interaction invariant. -/
theorem machineInv_on_pick (url : String) (s : MachineState) (h : MachineInv s) :
    MachineInv (on_pick url s).1 := by
  cases hidx : s.entries.findIdx? (fun p => p.1 = url) with
  | none =>
    simp only [on_pick, hidx]
    exact h
  | some j =>
    simp only [on_pick, hidx]
    have h1 : MachineInv { s with tabindex := 0 } := h
    by_cases ha : ({ s with tabindex := 0 } : MachineState).active_date_labels.isEmpty
    · rw [if_pos ha]
      cases hget : ({ s with tabindex := 0 } : MachineState).entries[j]? with
      | none =>
        simp only [hget]
        exact h1
      | some ue =>
        obtain ⟨u, e⟩ := ue
        simp only [hget]
        exact machineInv_pick_entries _ j u e hget h1 _ _
    · rw [if_neg ha]
      have h2 : MachineInv (clearActiveDateLabels { s with tabindex := 0 }) :=
        machineInv_of_cores { s with tabindex := 0 }
          (clearActiveDateLabels { s with tabindex := 0 }) rfl rfl
          (clearActiveDateLabels_cores { s with tabindex := 0 }) h1
      cases hget : (clearActiveDateLabels { s with tabindex := 0 }).entries[j]? with
      | none =>
        simp only [hget]
        exact h2
      | some ue =>
        obtain ⟨u, e⟩ := ue
        simp only [hget]
        exact machineInv_pick_entries _ j u e hget h2 _ _

/-- Every Pick / ToggleText / ToggleLines / CycleDate event preserves the
interaction invariant. -/
theorem machineInv_applyEvent (s : MachineState) (e : Event)
    (hA : AllowedEvent e) (h : MachineInv s) : MachineInv (applyEvent s e) := by
  cases e with
  | pick u => exact machineInv_on_pick u s h
  | keyPress k =>
    have hA' : k = "a" ∨ k = "t" ∨ k = "left" ∨ k = "right" := hA
    rcases hA' with hk | hk | hk | hk <;> subst hk
    · exact machineInv_toggle_text s h
    · exact machineInv_toggle_lines s h
    · exact machineInv_cycle_dates "left" s h
    · exact machineInv_cycle_dates "right" s h

/-- Any sequence of allowed events preserves the interaction invariant. -/
theorem machineInv_runEvents (s0 : MachineState) (es : List Event)
    (h : MachineInv s0) (hA : ∀ e ∈ es, AllowedEvent e) :
    MachineInv (runEvents s0 es) := by
  induction es generalizing s0 with
  | nil => exact h
  | cons e es ih =>
    exact ih (applyEvent s0 e)
      (machineInv_applyEvent s0 e (hA e (by simp)) h)
      (fun e' he' => hA e' (by simp [he']))

/-- What `_clear_all` actually does on a state satisfying the invariant. -/
theorem clear_all_spec (s : MachineState) (h : MachineInv s) :
    (∀ p ∈ (clear_all s).1.entries,
        p.2.line = 0 ∧ p.2.markers = 0 ∧ p.2.label = s.text_alpha_state) ∧
    (clear_all s).1.active_date_labels = [] ∧
    (clear_all s).1.tabindex = s.tabindex ∧
    (clear_all s).1.text_alpha_state = s.text_alpha_state ∧
    (s.active_date_labels ≠ [] →
        (clear_all s).1.highlighted_count = 0 ∧ (clear_all s).1.tabbable = false) ∧
    (s.active_date_labels = [] →
        (clear_all s).1.highlighted_count = s.highlighted_count ∧
        (clear_all s).1.tabbable = s.tabbable) := by
  obtain ⟨hL, hT, hent⟩ := h
  have hstage : ∀ p ∈ s.entries.map (fun p =>
      (p.1, if p.2.line ≠ 0 then
              { p.2 with line := 0, markers := 0, label := s.text_alpha_state }
            else p.2)),
      p.2.line = 0 ∧ p.2.markers = 0 ∧ p.2.label = s.text_alpha_state := by
    intro p hp
    obtain ⟨q, hq, rfl⟩ := List.mem_map.mp hp
    obtain ⟨m1, m2, m3, m4, m5⟩ := hent q hq
    dsimp only
    by_cases hline : q.2.line ≠ 0
    · rw [if_pos hline]
      exact ⟨rfl, rfl, rfl⟩
    · rw [if_neg hline]
      push_neg at hline
      have hm0 : q.2.markers = 0 := by
        rcases m1 with h1 | h0
        · exfalso
          have hl1 := m2.mpr h1
          rw [hl1] at hline
          exact absurd hline (by decide)
        · exact h0
      have hlabT : q.2.label = s.text_alpha_state := by
        rcases m5 with h1 | hT'
        · exfalso
          have hmk := m3.mp h1
          rw [hmk] at hm0
          exact absurd hm0 (by decide)
        · exact hT'
      exact ⟨hline, hm0, hlabT⟩
  by_cases ha : s.active_date_labels.isEmpty
  · have hae : s.active_date_labels = [] := List.isEmpty_iff.mp ha
    simp only [clear_all, if_pos ha]
    exact ⟨hstage, hae, by trivial, by trivial, fun hne => absurd hae hne,
      fun _ => ⟨by trivial, by trivial⟩⟩
  · have hae : s.active_date_labels ≠ [] := by
      intro he
      rw [he] at ha
      exact ha rfl
    simp only [clear_all, if_neg ha]
    refine ⟨fun p hp => ?_, by trivial, by trivial, by trivial,
      fun _ => ⟨by trivial, by trivial⟩, fun he => absurd he hae⟩
    obtain ⟨q', hq', rfl⟩ := List.mem_map.mp hp
    exact hstage q' hq'

/-- Claim C2 as amended: a freshly plotted scene satisfies the interaction
invariant; the invariant is preserved by any sequence of Pick / ToggleText /
ToggleLines / CycleDate events; and after a ClearAll from any such state,
every entry's tail line and markers have alpha `0`, every entry's label alpha
equals the (unchanged) global text state, and the active-date-label list is
empty — but the highlight count and the cursorable flag are reset to `0` only
when at least one date label was active, and the cursor index is never
reset. -/
theorem C2_amended :
    (∀ s0 : MachineState,
       (∀ p ∈ s0.entries, p.2.line = 0 ∧ p.2.markers = 0 ∧ p.2.label = 0) →
       s0.line_alpha_state = 0 → s0.text_alpha_state = 0 → MachineInv s0) ∧
    (∀ (s0 : MachineState) (es : List Event), MachineInv s0 →
       (∀ e ∈ es, AllowedEvent e) → MachineInv (runEvents s0 es)) ∧
    (∀ s : MachineState, MachineInv s →
       (∀ p ∈ (clear_all s).1.entries,
           p.2.line = 0 ∧ p.2.markers = 0 ∧ p.2.label = s.text_alpha_state) ∧
       (clear_all s).1.active_date_labels = [] ∧
       (clear_all s).1.tabindex = s.tabindex ∧
       (clear_all s).1.text_alpha_state = s.text_alpha_state ∧
       (s.active_date_labels ≠ [] →
           (clear_all s).1.highlighted_count = 0 ∧
           (clear_all s).1.tabbable = false) ∧
       (s.active_date_labels = [] →
           (clear_all s).1.highlighted_count = s.highlighted_count ∧
           (clear_all s).1.tabbable = s.tabbable)) := by
  refine ⟨fun s0 hfresh hL0 hT0 => ?_, machineInv_runEvents, clear_all_spec⟩
  refine ⟨Or.inl hL0, Or.inl hT0, fun p hp => ?_⟩
  obtain ⟨e1, e2, e3⟩ := hfresh p hp
  rw [hL0, hT0]
  unfold EntryInv
  rw [e1, e2, e3]
  decide

/-- Witness for C2: the invariant holds after a Pick on the fresh scene, and
applying ClearAll to the concrete highlighted-and-cycled state `cycleUnit 1`
hides its entry, keeps the cursor at `1`, and resets the count. -/
theorem C2_witness :
    MachineInv (runEvents init0 [Event.pick "s0"]) ∧
    (∀ p ∈ (clear_all (cycleUnit 1)).1.entries,
        p.2.line = 0 ∧ p.2.markers = 0 ∧ p.2.label = (cycleUnit 1).text_alpha_state) ∧
    (clear_all (cycleUnit 1)).1.tabindex = (cycleUnit 1).tabindex ∧
    (clear_all (cycleUnit 1)).1.highlighted_count = 0 := by
  have hinv : MachineInv (cycleUnit 1) := by
    unfold MachineInv EntryInv
    decide
  have hne : (cycleUnit 1).active_date_labels ≠ [] := by decide
  refine ⟨?_, (C2_amended.2.2 (cycleUnit 1) hinv).1,
    (C2_amended.2.2 (cycleUnit 1) hinv).2.2.1,
    ((C2_amended.2.2 (cycleUnit 1) hinv).2.2.2.2.1 hne).1⟩
  refine C2_amended.2.1 init0 [Event.pick "s0"] ?_ ?_
  · refine C2_amended.1 init0 ?_ rfl rfl
    intro p hp
    simp only [init0, entry0] at hp
    simp at hp
    rw [hp]
    exact ⟨rfl, rfl, rfl⟩
  · intro e he
    simp at he
    rw [he]
    exact trivial

end RRG
